import Mathlib

/-!
Shallow embedding of the vfyne visual regression-testing library.

Sources embedded here:
- testing/vfyne.go  : image comparison (imagesEqual), diff generation
  (createDiffImage), filename sanitization (sanitizeFilename), and the
  Snapshot entry point (modelled as a pure description of the file writes
  it performs and the outcome it records).
- builder.go        : suite result statistics (SuiteResult.Total, Passed,
  Failed, PassRate) and the RunTests / RunCLI exit-code logic.
- report generator  : ReportGenerator.createSummary and the report error
  propagation inside GenerateHTMLReport.
- fynetest.go       : Test.Validate and Runner.RunTest fail-fast behavior.

Modelling conventions:
- Go strings are modelled as lists of Unicode code points (List Nat),
  matching how Go regexp and the strings package act on runes.
- Raster images are width times height pixel grids with origin (0,0);
  both kinds of image handled by this library (PNG decodes and canvas
  captures) have zero-origin bounds, so bounds equality coincides with
  dimension equality.
- Colors are RGBA quadruples compared structurally; in the Go source both
  compared images expose their pixels through the same concrete color
  type, so interface equality is channel equality.
- File-system effects are modelled as explicit write lists and slot
  updates; the model assumes the underlying I/O primitives succeed (the
  I/O failure paths abort the test via t.Fatalf and are outside the
  claims treated here).
- Durations (Go time.Duration, an int64 nanosecond count) are modelled as
  unbounded integers; the values summed here are elapsed-time samples far
  below the int64 range, so wrap-around is unreachable.
-/

namespace VFyne

/-- RGBA color quadruple, the pixel type of the raster images that both
png.Decode and the canvas capture produce in this library. -/
structure RGBA where
  r : Nat
  g : Nat
  b : Nat
  a : Nat
deriving DecidableEq

/-- Raster image: a width times height grid of RGBA pixels stored in
row-major order, with bounds origin (0,0) as produced by png.Decode and
canvas.Capture in this library. -/
structure Img where
  width : Nat
  height : Nat
  pix : List RGBA
deriving DecidableEq

/-- Pixel lookup at coordinate (x, y), the model of image.Image.At for the
zero-origin row-major images this library handles. -/
def Img.colorAt (i : Img) (x y : Nat) : RGBA :=
  i.pix.getD (y * i.width + x) ⟨0, 0, 0, 0⟩

/-- Model of imagesEqual (testing/vfyne.go): false when the bounds differ,
otherwise a scan of every coordinate comparing the two pixels. -/
def imagesEqual (a b : Img) : Bool :=
  if a.width = b.width ∧ a.height = b.height then
    (List.range a.height).all fun y =>
      (List.range a.width).all fun x => a.colorAt x y == b.colorAt x y
  else false

/-- Fixed high-visibility marker color used for differing pixels in diff
images; models theme.ErrorColor() in testing/vfyne.go. Its concrete
channel values are irrelevant to every property proved below. -/
def errorColor : RGBA :=
  ⟨244, 67, 54, 255⟩

/-- Model of createDiffImage (testing/vfyne.go): nil when the bounds
differ; otherwise a new image of the same dimensions whose pixel at (x,y)
is the expected pixel where the two images agree and errorColor where
they differ. -/
def createDiffImage (expected actual : Img) : Option Img :=
  if expected.width = actual.width ∧ expected.height = actual.height then
    some
      { width := expected.width
        height := expected.height
        pix :=
          (List.range (expected.width * expected.height)).map fun i =>
            let x := i % expected.width
            let y := i / expected.width
            if expected.colorAt x y == actual.colorAt x y then
              expected.colorAt x y
            else errorColor }
  else none

/-- Character class [a-zA-Z0-9_-] of the Go regexp used by
sanitizeFilename (testing/vfyne.go). -/
def isAllowed (c : Nat) : Bool :=
  (97 ≤ c && c ≤ 122) || (65 ≤ c && c ≤ 90) || (48 ≤ c && c ≤ 57) ||
    c == 95 || c == 45

/-- Lower-case character class [a-z0-9_-] named by the spec sentence that
describes sanitization. -/
def isLowerAllowed (c : Nat) : Bool :=
  (97 ≤ c && c ≤ 122) || (48 ≤ c && c ≤ 57) || c == 95 || c == 45

/-- Model of regexp.ReplaceAllString with a one-or-more negated-class
pattern: each maximal run of characters failing p becomes one underscore
(code point 95). The Boolean argument records whether the scan is inside
such a run (so no further underscore is emitted for it). -/
def replaceRunsAux (p : Nat → Bool) : Bool → List Nat → List Nat
  | _, [] => []
  | inRun, c :: rest =>
    if p c then c :: replaceRunsAux p false rest
    else if inRun then replaceRunsAux p true rest
    else 95 :: replaceRunsAux p true rest

/-- Replace every maximal run of characters failing p with one underscore;
replaceRunsAux started outside a run. -/
def replaceRuns (p : Nat → Bool) (s : List Nat) : List Nat :=
  replaceRunsAux p false s

/-- Model of strings.Trim(s, "_"): remove leading and trailing
underscores. -/
def trimUnderscores (s : List Nat) : List Nat :=
  (((s.dropWhile fun c => c == 95).reverse.dropWhile fun c => c == 95)).reverse

/-- Model of strings.ToLower on a single rune, exact on every code point
this development evaluates it on: ASCII letters A-Z map to a-z, and the
two non-ASCII code points whose Go lower-case form lies inside [a-z0-9_-]
are mapped as Go maps them (U+0130 to i, U+212A to k). Other code points
are left unchanged; inside sanitizeFilename the lower-casing runs after
the regexp replacement and the underscore trim, so it only ever sees
characters from [a-zA-Z0-9_-], where this model is exact. -/
def toLowerRune (c : Nat) : Nat :=
  if 65 ≤ c ∧ c ≤ 90 then c + 32
  else if c = 304 then 105
  else if c = 8490 then 107
  else c

/-- Model of sanitizeFilename (testing/vfyne.go): replace each run of
characters outside [a-zA-Z0-9_-] by one underscore, trim leading and
trailing underscores, then lower-case the result. -/
def sanitizeFilename (s : List Nat) : List Nat :=
  (trimUnderscores (replaceRuns isAllowed s)).map toLowerRune

/-- Sanitization as the spec words it, for comparison with the source
order: lower-case the name first, then replace each run of characters
outside [a-z0-9_-] by one underscore, then trim leading and trailing
underscores. -/
def specSanitize (s : List Nat) : List Nat :=
  trimUnderscores (replaceRuns isLowerAllowed (s.map toLowerRune))

/-- Directory a snapshot-related artifact is written into: the baseline
directory (snapshotDir, "snapshots") or the screenshot directory
(screenshotDir, "screenshots"). -/
inductive Dir where
  | snapshots
  | screenshots
deriving DecidableEq

/-- One write target: a directory together with a file name (a list of
code points). -/
structure Artifact where
  dir : Dir
  file : List Nat
deriving DecidableEq

/-- Baseline file name for a case: sanitized name followed by ".png". -/
def pngName (name : List Nat) : List Nat :=
  sanitizeFilename name ++ [46, 112, 110, 103]

/-- File name written when no baseline exists: "failed_" followed by the
png name (testing/vfyne.go, missing-snapshot branch). -/
def failedName (name : List Nat) : List Nat :=
  [102, 97, 105, 108, 101, 100, 95] ++ pngName name

/-- File name of the captured image on a mismatch: "actual_" followed by
the png name. -/
def actualName (name : List Nat) : List Nat :=
  [97, 99, 116, 117, 97, 108, 95] ++ pngName name

/-- File name of the diff image on a mismatch: "diff_" followed by the png
name. -/
def diffName (name : List Nat) : List Nat :=
  [100, 105, 102, 102, 95] ++ pngName name

/-- Terminal outcome of one Snapshot call. -/
inductive SnapOutcome where
  | updated
  | missing
  | matched
  | mismatch
deriving DecidableEq

/-- Model of the Snapshot entry point (testing/vfyne.go) as the outcome it
records, as a function of the mode flag, the baseline stored at the
derived path (none when the file does not exist), and the captured
image. -/
def snapshotOutcome (update : Bool) (baseline : Option Img) (img : Img) :
    SnapOutcome :=
  if update then .updated
  else
    match baseline with
    | none => .missing
    | some expected =>
      if imagesEqual expected img then .matched else .mismatch

/-- Whether the Snapshot call marks the test failed (t.Errorf is called in
exactly the missing and mismatch branches). -/
def snapshotFailed (update : Bool) (baseline : Option Img) (img : Img) :
    Bool :=
  match snapshotOutcome update baseline img with
  | .missing => true
  | .mismatch => true
  | _ => false

/-- Model of the file writes one Snapshot call performs, in program order:
update mode overwrites the baseline; verify mode with no baseline writes
the capture under "failed_"; a mismatch writes the capture under
"actual_" and, when createDiffImage returns an image, the diff under
"diff_"; a match writes nothing. -/
def snapshotWrites (update : Bool) (name : List Nat) (baseline : Option Img)
    (img : Img) : List (Artifact × Img) :=
  if update then [(⟨.snapshots, pngName name⟩, img)]
  else
    match baseline with
    | none => [(⟨.screenshots, failedName name⟩, img)]
    | some expected =>
      if imagesEqual expected img then []
      else
        match createDiffImage expected img with
        | some d =>
          [(⟨.screenshots, actualName name⟩, img),
           (⟨.screenshots, diffName name⟩, d)]
        | none => [(⟨.screenshots, actualName name⟩, img)]

/-- Apply a write list to a file-system state (content stored at each
artifact path); os.Create truncates, so each write overwrites the slot. -/
def applyWrites (fs : Artifact → Option Img) :
    List (Artifact × Img) → Artifact → Option Img
  | [], a => fs a
  | (t, i) :: rest, a =>
    applyWrites (fun a' => if a' = t then some i else fs a') rest a

/-- One update-mode Snapshot run over a file-system state: the baseline
read is irrelevant in update mode, the write list is applied to the
state. -/
def updateRun (fs : Artifact → Option Img) (name : List Nat) (img : Img) :
    Artifact → Option Img :=
  applyWrites fs
    (snapshotWrites true name (fs ⟨.snapshots, pngName name⟩) img)

end VFyne

namespace Builder

/-- Per-case data the aggregate statistics depend on: the Success flag and
the Duration (nanoseconds) of one Result (builder.go / fynetest.go). -/
structure CaseOutcome where
  success : Bool
  duration : Int
deriving DecidableEq

/-- Summary record built by ReportGenerator.createSummary. -/
structure Summary where
  total : Nat
  passed : Nat
  failed : Nat
  passRate : ℚ
  duration : Int
deriving DecidableEq

/-- The accumulation loop inside createSummary: one pass over the results,
incrementing passed or failed and adding the duration. -/
def summarizeLoop : List CaseOutcome → Summary → Summary
  | [], s => s
  | r :: rest, s =>
    summarizeLoop rest
      { s with
        passed := if r.success then s.passed + 1 else s.passed
        failed := if r.success then s.failed else s.failed + 1
        duration := s.duration + r.duration }

/-- Model of ReportGenerator.createSummary: total is initialized to the
length, passed, failed and duration are accumulated by the loop, and
passRate is set from passed and total only when total is positive
(otherwise it keeps its zero initialization). -/
def createSummary (results : List CaseOutcome) : Summary :=
  let s := summarizeLoop results ⟨results.length, 0, 0, 0, 0⟩
  if s.total > 0 then
    { s with passRate := (s.passed : ℚ) / (s.total : ℚ) * 100 }
  else s

/-- Model of SuiteResult.Total (builder.go). -/
def suiteTotal (results : List CaseOutcome) : Nat :=
  results.length

/-- Model of SuiteResult.Passed (builder.go): count of successful
results. -/
def suitePassed (results : List CaseOutcome) : Nat :=
  results.countP (·.success)

/-- Model of SuiteResult.Failed (builder.go): Total minus Passed. -/
def suiteFailed (results : List CaseOutcome) : Nat :=
  suiteTotal results - suitePassed results

/-- Model of SuiteResult.PassRate (builder.go): 0 when no results,
otherwise passed over total times 100. -/
def suitePassRate (results : List CaseOutcome) : ℚ :=
  if suiteTotal results = 0 then 0
  else (suitePassed results : ℚ) / (suiteTotal results : ℚ) * 100

/-- Inputs of one CLI batch run that the exit code can depend on: the
per-case outcomes, whether report generation is enabled, and whether
rendering the HTML respectively the JSON report fails. -/
structure CLIRun where
  results : List CaseOutcome
  generateReport : Bool
  htmlReportFails : Bool
  jsonReportFails : Bool
deriving DecidableEq

/-- Whether Suite.RunTests returns a non-nil error (builder.go): exactly
when report generation is enabled and GenerateHTMLReport fails. A JSON
report failure is swallowed inside GenerateHTMLReport with a warning and
never propagates. -/
def runTestsReturnsError (r : CLIRun) : Bool :=
  r.generateReport && r.htmlReportFails

/-- Model of the Suite.RunCLI exit code on the run path (builder.go): exit
1 when RunTests returned an error, else exit 1 when at least one case
failed, else exit 0. -/
def runCLIExitCode (r : CLIRun) : Nat :=
  if runTestsReturnsError r then 1
  else if suiteFailed r.results > 0 then 1
  else 0

end Builder

namespace FyneTest

/-- Validation errors produced by Test.Validate (fynetest.go), in the
order the checks run. -/
inductive VErr where
  | emptyName
  | invalidChar (c : Nat)
  | nilSetup
  | negativeWait
deriving DecidableEq

/-- A Test as far as validation and the fail-fast path observe it: its
name, whether the Setup function is non-nil, and the WaitDuration
(nanoseconds, signed). -/
structure TestCase where
  name : List Nat
  hasSetup : Bool
  waitDuration : Int
deriving DecidableEq

/-- The invalid file-name characters checked by Test.Validate, in source
order: slash, backslash, colon, star, question mark, double quote, less
than, greater than, pipe. -/
def invalidChars : List Nat :=
  [47, 92, 58, 42, 63, 34, 60, 62, 124]

/-- Model of Test.Validate (fynetest.go): empty name, then the first
invalid character found (in the order of the invalidChars list), then nil
Setup, then negative WaitDuration. -/
def validate (t : TestCase) : Option VErr :=
  if t.name.isEmpty then some .emptyName
  else
    match invalidChars.find? (fun ch => t.name.contains ch) with
    | some ch => some (.invalidChar ch)
    | none =>
      if !t.hasSetup then some .nilSetup
      else if t.waitDuration < 0 then some .negativeWait
      else none

/-- Observable effects of Runner.RunTest, in program order. -/
inductive RunEvent where
  | mkdirOutput
  | createWindow
  | showWindow
  | captureCanvas
  | saveScreenshot
deriving DecidableEq

/-- What one Runner.RunTest call produces: the Success flag, whether the
Result carries a non-nil Error, and the effects performed. -/
structure RunOutcome where
  success : Bool
  hasError : Bool
  events : List RunEvent
deriving DecidableEq

/-- Model of Runner.RunTest (fynetest.go). Validation runs first; on a
validation error the Result is returned with Success false and a non-nil
Error before any effect. Afterwards the call creates the output directory,
creates a window, runs Setup (nil content fails), shows the window, waits,
captures the canvas (a nil canvas or nil image fails), and saves the
screenshot; each failure point returns Success false with an Error. The
Boolean oracles stand for the success of the corresponding external
operation. -/
def runTest (t : TestCase) (mkdirOk contentOk captureOk saveOk : Bool) :
    RunOutcome :=
  match validate t with
  | some _ => ⟨false, true, []⟩
  | none =>
    if !mkdirOk then ⟨false, true, [.mkdirOutput]⟩
    else if !contentOk then ⟨false, true, [.mkdirOutput, .createWindow]⟩
    else if !captureOk then
      ⟨false, true, [.mkdirOutput, .createWindow, .showWindow, .captureCanvas]⟩
    else if !saveOk then
      ⟨false, true,
        [.mkdirOutput, .createWindow, .showWindow, .captureCanvas,
          .saveScreenshot]⟩
    else
      ⟨true, false,
        [.mkdirOutput, .createWindow, .showWindow, .captureCanvas,
          .saveScreenshot]⟩

end FyneTest

namespace VFyne

theorem imagesEqual_true_iff (a b : Img) :
    imagesEqual a b = true ↔
      a.width = b.width ∧ a.height = b.height ∧
        ∀ x y, x < a.width → y < a.height → a.colorAt x y = b.colorAt x y := by
  unfold imagesEqual
  by_cases h : a.width = b.width ∧ a.height = b.height
  · rw [if_pos h]
    simp only [List.all_eq_true, List.mem_range, beq_iff_eq]
    constructor
    · intro hall
      exact ⟨h.1, h.2, fun x y hx hy => hall y hy x hx⟩
    · intro hall y hy x hx
      exact hall.2.2 x y hx hy
  · rw [if_neg h]
    constructor
    · intro hfalse
      exact (Bool.false_ne_true hfalse).elim
    · intro hall
      exact absurd ⟨hall.1, hall.2.1⟩ h

theorem imagesEqual_self (a : Img) : imagesEqual a a = true := by
  rw [imagesEqual_true_iff]
  exact ⟨rfl, rfl, fun _ _ _ _ => rfl⟩

/-- C1: the comparison reports a match iff the dimensions are equal and
every pixel at identical coordinates is exactly equal; in particular every
image matches itself. -/
theorem compare_matched_iff_pixel_equal (a b : Img) :
    (imagesEqual a b = true ↔
      a.width = b.width ∧ a.height = b.height ∧
        ∀ x y, x < a.width → y < a.height → a.colorAt x y = b.colorAt x y) ∧
    imagesEqual a a = true :=
  ⟨imagesEqual_true_iff a b, imagesEqual_self a⟩

/-- C1 witness: the characterization evaluated on concrete images. -/
theorem compare_matched_iff_pixel_equal_witness :
    (imagesEqual ⟨1, 1, [⟨1, 2, 3, 4⟩]⟩ ⟨1, 1, [⟨9, 2, 3, 4⟩]⟩ = true ↔
      (1 : Nat) = 1 ∧ (1 : Nat) = 1 ∧
        ∀ x y, x < 1 → y < 1 →
          Img.colorAt ⟨1, 1, [⟨1, 2, 3, 4⟩]⟩ x y =
            Img.colorAt ⟨1, 1, [⟨9, 2, 3, 4⟩]⟩ x y) ∧
    imagesEqual ⟨1, 1, [⟨1, 2, 3, 4⟩]⟩ ⟨1, 1, [⟨1, 2, 3, 4⟩]⟩ = true :=
  compare_matched_iff_pixel_equal ⟨1, 1, [⟨1, 2, 3, 4⟩]⟩ ⟨1, 1, [⟨9, 2, 3, 4⟩]⟩

theorem createDiffImage_pixel (e a : Img) (hw : e.width = a.width)
    (hh : e.height = a.height) (x y : Nat) (hx : x < a.width) (hy : y < a.height)
    (d : Img) (hd : createDiffImage e a = some d) :
    d.colorAt x y =
      if e.colorAt x y = a.colorAt x y then a.colorAt x y else errorColor := by
  unfold createDiffImage at hd
  rw [if_pos ⟨hw, hh⟩] at hd
  have hxw : x < e.width := by omega
  have hyh : y < e.height := by omega
  obtain rfl : _ = d := Option.some_injective _ hd
  simp only [Img.colorAt]
  have hk : y * e.width + x < e.width * e.height := by
    calc y * e.width + x < y * e.width + e.width := by omega
    _ = (y + 1) * e.width := by ring
    _ ≤ e.height * e.width := Nat.mul_le_mul_right _ hyh
    _ = e.width * e.height := Nat.mul_comm _ _
  rw [List.getD_eq_getElem?_getD, List.getElem?_map, List.getElem?_range hk]
  have hx' : (y * e.width + x) % e.width = x := by
    rw [Nat.add_comm, Nat.add_mul_mod_self_right]
    exact Nat.mod_eq_of_lt hxw
  have hy' : (y * e.width + x) / e.width = y := by
    rw [Nat.add_comm, Nat.add_mul_div_right _ _ (by omega : 0 < e.width),
      Nat.div_eq_of_lt hxw, Nat.zero_add]
  simp only [Option.map_some', Option.getD_some]
  simp only [hx', hy']
  show (if (e.colorAt x y == a.colorAt x y) = true then e.colorAt x y else errorColor) =
    if e.colorAt x y = a.colorAt x y then a.colorAt x y else errorColor
  by_cases hc : e.colorAt x y = a.colorAt x y
  · rw [hc]
    simp
  · rw [if_neg (by simpa [beq_iff_eq] using hc), if_neg hc]

/-- C2: for images of equal dimensions the diff is a new image of identical
dimensions carrying the marker color exactly at the differing positions and
the matching (candidate) color elsewhere; for differing dimensions no diff
image is produced. -/
theorem builddiff_spec (e a : Img) :
    (e.width = a.width → e.height = a.height →
      ∃ d, createDiffImage e a = some d ∧ d.width = a.width ∧ d.height = a.height ∧
        ∀ x y, x < a.width → y < a.height →
          d.colorAt x y =
            if e.colorAt x y = a.colorAt x y then a.colorAt x y else errorColor) ∧
    ((e.width = a.width ∧ e.height = a.height → False) →
      createDiffImage e a = none) := by
  constructor
  · intro hw hh
    have hd : createDiffImage e a =
        some { width := e.width, height := e.height,
               pix := (List.range (e.width * e.height)).map fun i =>
                 if e.colorAt (i % e.width) (i / e.width) ==
                     a.colorAt (i % e.width) (i / e.width) then
                   e.colorAt (i % e.width) (i / e.width)
                 else errorColor } := by
      unfold createDiffImage
      rw [if_pos ⟨hw, hh⟩]
    refine ⟨_, hd, hw, hh, ?_⟩
    intro x y hx hy
    exact createDiffImage_pixel e a hw hh x y hx hy _ hd
  · intro hne
    unfold createDiffImage
    rw [if_neg hne]

/-- C2 witness: the diff characterization evaluated on a concrete pixel
mismatch and a concrete dimension mismatch. -/
theorem builddiff_spec_witness :
    (∃ d, createDiffImage ⟨1, 1, [⟨1, 2, 3, 4⟩]⟩ ⟨1, 1, [⟨9, 2, 3, 4⟩]⟩ = some d ∧
      d.width = 1 ∧ d.height = 1 ∧
      ∀ x y, x < 1 → y < 1 →
        d.colorAt x y =
          if Img.colorAt ⟨1, 1, [⟨1, 2, 3, 4⟩]⟩ x y =
              Img.colorAt ⟨1, 1, [⟨9, 2, 3, 4⟩]⟩ x y then
            Img.colorAt ⟨1, 1, [⟨9, 2, 3, 4⟩]⟩ x y
          else errorColor) ∧
    createDiffImage ⟨1, 1, [⟨1, 2, 3, 4⟩]⟩ ⟨2, 1, [⟨1, 2, 3, 4⟩, ⟨1, 2, 3, 4⟩]⟩ = none :=
  ⟨(builddiff_spec ⟨1, 1, [⟨1, 2, 3, 4⟩]⟩ ⟨1, 1, [⟨9, 2, 3, 4⟩]⟩).1 rfl rfl,
   (builddiff_spec ⟨1, 1, [⟨1, 2, 3, 4⟩]⟩ ⟨2, 1, [⟨1, 2, 3, 4⟩, ⟨1, 2, 3, 4⟩]⟩).2
     (by decide)⟩

end VFyne

namespace VFyne

theorem toLowerRune_95 : toLowerRune 95 = 95 := by decide

theorem ascii_class_pointwise :
    ∀ c < 128, isLowerAllowed (toLowerRune c) = isAllowed c := by decide

theorem ascii_95_pointwise :
    ∀ c < 128, (toLowerRune c == 95) = (c == 95) := by decide

theorem allowed_lt : ∀ c, isAllowed c = true → c < 123 := by
  intro c h
  simp only [isAllowed, Bool.or_eq_true, Bool.and_eq_true, decide_eq_true_eq,
    beq_iff_eq] at h
  omega

theorem allowed_toLower : ∀ c < 123, isAllowed c = true →
    isAllowed (toLowerRune c) = true := by decide

theorem allowed_95_pointwise : ∀ c < 123, isAllowed c = true →
    (toLowerRune c == 95) = (c == 95) := by decide

theorem allowed_toLower_idem : ∀ c < 123, isAllowed c = true →
    toLowerRune (toLowerRune c) = toLowerRune c := by decide

theorem replaceRunsAux_map (p q : Nat → Bool) (f : Nat → Nat) (hf : f 95 = 95) :
    ∀ (s : List Nat) (b : Bool), (∀ c ∈ s, q (f c) = p c) →
      replaceRunsAux q b (s.map f) = (replaceRunsAux p b s).map f := by
  intro s
  induction s with
  | nil => intro b _; rfl
  | cons c rest ih =>
    intro b hmem
    have hc : q (f c) = p c := hmem c (List.mem_cons_self c rest)
    have hrest : ∀ x ∈ rest, q (f x) = p x :=
      fun x hx => hmem x (List.mem_cons_of_mem c hx)
    simp only [List.map_cons, replaceRunsAux]
    rw [hc]
    by_cases hpc : p c = true
    · rw [if_pos hpc, if_pos hpc, List.map_cons, ih false hrest]
    · rw [if_neg hpc, if_neg hpc]
      cases b with
      | true =>
        rw [if_pos rfl, if_pos rfl, ih true hrest]
      | false =>
        rw [if_neg (by simp), if_neg (by simp), List.map_cons, hf,
          ih true hrest]

theorem replaceRunsAux_mem (p : Nat → Bool) :
    ∀ (s : List Nat) (b : Bool) (c : Nat), c ∈ replaceRunsAux p b s →
      c = 95 ∨ p c = true := by
  intro s
  induction s with
  | nil => intro b c hc; cases hc
  | cons d rest ih =>
    intro b c hc
    simp only [replaceRunsAux] at hc
    by_cases hpd : p d = true
    · rw [if_pos hpd] at hc
      rcases List.mem_cons.mp hc with rfl | hc'
      · exact Or.inr hpd
      · exact ih false c hc'
    · rw [if_neg hpd] at hc
      cases b with
      | true =>
        rw [if_pos rfl] at hc
        exact ih true c hc
      | false =>
        rw [if_neg (by simp)] at hc
        rcases List.mem_cons.mp hc with rfl | hc'
        · exact Or.inl rfl
        · exact ih true c hc'

theorem replaceRunsAux_id (p : Nat → Bool) :
    ∀ (s : List Nat) (b : Bool), (∀ c ∈ s, p c = true) →
      replaceRunsAux p b s = s := by
  intro s
  induction s with
  | nil => intro b _; rfl
  | cons c rest ih =>
    intro b hmem
    simp only [replaceRunsAux]
    rw [if_pos (hmem c (List.mem_cons_self c rest)),
      ih false (fun x hx => hmem x (List.mem_cons_of_mem c hx))]

theorem dropWhile_map (p q : Nat → Bool) (f : Nat → Nat) :
    ∀ s : List Nat, (∀ c ∈ s, q (f c) = p c) →
      (s.map f).dropWhile q = (s.dropWhile p).map f := by
  intro s
  induction s with
  | nil => intro _; rfl
  | cons c rest ih =>
    intro hmem
    have hc : q (f c) = p c := hmem c (List.mem_cons_self c rest)
    have hrest : ∀ x ∈ rest, q (f x) = p x :=
      fun x hx => hmem x (List.mem_cons_of_mem c hx)
    simp only [List.map_cons, List.dropWhile_cons]
    rw [hc]
    by_cases hpc : p c = true
    · rw [if_pos hpc, if_pos hpc, ih hrest]
    · rw [if_neg hpc, if_neg hpc, List.map_cons]

theorem mem_of_mem_trim {c : Nat} {s : List Nat}
    (h : c ∈ trimUnderscores s) : c ∈ s := by
  unfold trimUnderscores at h
  rw [List.mem_reverse] at h
  have h1 := (List.dropWhile_sublist (fun c => c == 95)).subset h
  rw [List.mem_reverse] at h1
  exact (List.dropWhile_sublist (fun c => c == 95)).subset h1

theorem trim_map (f : Nat → Nat) (s : List Nat)
    (hmem : ∀ c ∈ s, (f c == 95) = (c == 95)) :
    trimUnderscores (s.map f) = (trimUnderscores s).map f := by
  unfold trimUnderscores
  have h1 : (s.map f).dropWhile (fun c => c == 95) =
      (s.dropWhile (fun c => c == 95)).map f :=
    dropWhile_map _ _ f s hmem
  rw [h1, ← List.map_reverse]
  have hmem2 : ∀ c ∈ (s.dropWhile (fun c => c == 95)).reverse,
      (f c == 95) = (c == 95) := fun c hc =>
    hmem c ((List.dropWhile_sublist (fun c => c == 95)).subset
      (List.mem_reverse.mp hc))
  rw [dropWhile_map _ _ f _ hmem2, ← List.map_reverse]

theorem dropWhile_dropWhile (p : Nat → Bool) (l : List Nat) :
    (l.dropWhile p).dropWhile p = l.dropWhile p := by
  induction l with
  | nil => rfl
  | cons c rest ih =>
    rw [List.dropWhile_cons]
    by_cases hpc : p c = true
    · rw [if_pos hpc]
      exact ih
    · rw [if_neg hpc, List.dropWhile_cons, if_neg hpc]

theorem dropWhile_self_of_append {p : Nat → Bool} {u v : List Nat}
    (h : (u ++ v).dropWhile p = u ++ v) : u.dropWhile p = u := by
  cases u with
  | nil => rfl
  | cons c u' =>
    rw [List.cons_append, List.dropWhile_cons] at h
    by_cases hpc : p c = true
    · rw [if_pos hpc] at h
      have hlen := congrArg List.length h
      have hle := (List.dropWhile_sublist p (l := u' ++ v)).length_le
      simp only [List.length_cons] at hlen
      omega
    · rw [List.dropWhile_cons, if_neg hpc]

theorem trim_trim (s : List Nat) :
    trimUnderscores (trimUnderscores s) = trimUnderscores s := by
  unfold trimUnderscores
  set p : Nat → Bool := fun c => c == 95 with hp
  set A := s.dropWhile p with hA
  set B := ((A.reverse.dropWhile p)).reverse with hB
  have hAdrop : A.dropWhile p = A := dropWhile_dropWhile p s
  have hsplit : A = B ++ (A.reverse.takeWhile p).reverse := by
    have hsp := List.takeWhile_append_dropWhile p A.reverse
    calc A = A.reverse.reverse := (List.reverse_reverse A).symm
    _ = (A.reverse.takeWhile p ++ A.reverse.dropWhile p).reverse := by rw [hsp]
    _ = B ++ (A.reverse.takeWhile p).reverse := by
        rw [List.reverse_append]
  have hBdrop : B.dropWhile p = B := by
    apply dropWhile_self_of_append (v := (A.reverse.takeWhile p).reverse)
    rw [← hsplit]
    exact hAdrop
  rw [hBdrop, List.reverse_reverse, dropWhile_dropWhile]

theorem trim_replace_allowed_members :
    ∀ (s : List Nat) (c : Nat), c ∈ trimUnderscores (replaceRuns isAllowed s) →
      isAllowed c = true := by
  intro s c hc
  rcases replaceRunsAux_mem isAllowed s false c (mem_of_mem_trim hc) with rfl | h
  · decide
  · exact h

/-- C4 counterexample: on the input consisting of the single code point
U+212A (KELVIN SIGN) the source sanitization returns the empty string while
the spec order (lower-case first, then replace, then trim) returns "k",
because Go lower-cases U+212A to the ASCII letter k. -/
theorem sanitize_spec_order_counterexample :
    sanitizeFilename [8490] = [] ∧ specSanitize [8490] = [107] ∧
      sanitizeFilename [8490] ≠ specSanitize [8490] := by decide

/-- C4 amended: sanitization is a total function, and on every input made
of ASCII characters it agrees with the spec order (lower-case first, then
replace runs outside the lower-case class, then trim underscores); in
general the source lower-cases last. -/
theorem sanitize_ascii_matches_spec (s : List Nat)
    (h : ∀ c ∈ s, c < 128) : sanitizeFilename s = specSanitize s := by
  unfold sanitizeFilename specSanitize replaceRuns
  rw [replaceRunsAux_map isAllowed isLowerAllowed toLowerRune toLowerRune_95 s
    false (fun c hc => ascii_class_pointwise c (h c hc))]
  rw [trim_map toLowerRune _ (fun c hc => by
    rcases replaceRunsAux_mem isAllowed s false c hc with rfl | hall
    · decide
    · exact allowed_95_pointwise c (allowed_lt c hall) hall)]

/-- C4 witness: the ASCII agreement evaluated on a concrete name. -/
theorem sanitize_ascii_matches_spec_witness :
    sanitizeFilename [32, 72, 101, 108, 108, 111, 32, 87, 111, 114, 108, 100, 33] =
      specSanitize [32, 72, 101, 108, 108, 111, 32, 87, 111, 114, 108, 100, 33] :=
  sanitize_ascii_matches_spec
    [32, 72, 101, 108, 108, 111, 32, 87, 111, 114, 108, 100, 33] (by decide)

/-- C9: sanitization is idempotent (and, being a function of its input,
deterministic), so repeated runs of a case derive the same baseline
path. -/
theorem sanitize_idempotent (s : List Nat) :
    sanitizeFilename (sanitizeFilename s) = sanitizeFilename s := by
  have hTX := trim_replace_allowed_members s
  have hU : ∀ c ∈ sanitizeFilename s, isAllowed c = true := by
    intro c hc
    unfold sanitizeFilename at hc
    rcases List.mem_map.mp hc with ⟨c', hc', rfl⟩
    have hall := hTX c' hc'
    exact allowed_toLower c' (allowed_lt c' hall) hall
  show (trimUnderscores (replaceRuns isAllowed (sanitizeFilename s))).map
      toLowerRune = sanitizeFilename s
  rw [show replaceRuns isAllowed (sanitizeFilename s) = sanitizeFilename s from
    replaceRunsAux_id isAllowed (sanitizeFilename s) false hU]
  show (trimUnderscores ((trimUnderscores (replaceRuns isAllowed s)).map
      toLowerRune)).map toLowerRune = sanitizeFilename s
  rw [trim_map toLowerRune _ (fun c hc => by
    have hall := hTX c hc
    exact allowed_95_pointwise c (allowed_lt c hall) hall)]
  rw [trim_trim]
  unfold sanitizeFilename
  rw [List.map_map]
  exact List.map_congr_left (fun c hc => by
    have hall := hTX c hc
    exact allowed_toLower_idem c (allowed_lt c hall) hall)

end VFyne

namespace VFyne

theorem failedName_ne_actualName (n : List Nat) : failedName n ≠ actualName n := by
  simp [failedName, actualName]

theorem failedName_ne_diffName (n : List Nat) : failedName n ≠ diffName n := by
  simp [failedName, diffName]

theorem actualName_ne_diffName (n : List Nat) : actualName n ≠ diffName n := by
  simp [actualName, diffName]

theorem createDiffImage_some_dims {e a d : Img}
    (h : createDiffImage e a = some d) :
    e.width = a.width ∧ e.height = a.height := by
  unfold createDiffImage at h
  by_cases hc : e.width = a.width ∧ e.height = a.height
  · exact hc
  · rw [if_neg hc] at h
    cases h

/-- C3 counterexample: a verify-mode run of case "foo" with no baseline
writes the capture to the failed_foo.png artifact, not to an
actual_foo.png artifact as the claim states. -/
theorem snapshot_missing_counterexample :
    snapshotWrites false [102, 111, 111] none ⟨1, 1, [⟨1, 2, 3, 4⟩]⟩ =
      [(⟨Dir.screenshots, failedName [102, 111, 111]⟩, ⟨1, 1, [⟨1, 2, 3, 4⟩]⟩)] ∧
    failedName [102, 111, 111] ≠ actualName [102, 111, 111] ∧
    ¬ ∃ w ∈ snapshotWrites false [102, 111, 111] none ⟨1, 1, [⟨1, 2, 3, 4⟩]⟩,
        w.1 = ⟨Dir.screenshots, actualName [102, 111, 111]⟩ := by decide

/-- C3 amended: a verify-mode run with no baseline records outcome
Missing, marks the case failed, writes exactly one artifact, namely the
capture under failed_<name> in the screenshots directory (not the baseline
slot), and writes no diff_<name> artifact. -/
theorem snapshot_missing_spec (name : List Nat) (img : Img) :
    snapshotOutcome false none img = SnapOutcome.missing ∧
    snapshotFailed false none img = true ∧
    snapshotWrites false name none img =
      [(⟨Dir.screenshots, failedName name⟩, img)] ∧
    ¬ ∃ w ∈ snapshotWrites false name none img,
        w.1 = ⟨Dir.screenshots, diffName name⟩ := by
  refine ⟨rfl, rfl, rfl, ?_⟩
  rintro ⟨w, hw, hart⟩
  have hw' : w = (⟨Dir.screenshots, failedName name⟩, img) :=
    List.mem_singleton.mp hw
  subst hw'
  exact failedName_ne_diffName name (congrArg Artifact.file hart)

/-- C3 witness for the amended statement, at a concrete case name and
image. -/
theorem snapshot_missing_spec_witness :
    snapshotOutcome false none ⟨1, 1, [⟨1, 2, 3, 4⟩]⟩ = SnapOutcome.missing ∧
    snapshotFailed false none ⟨1, 1, [⟨1, 2, 3, 4⟩]⟩ = true ∧
    snapshotWrites false [102, 111, 111] none ⟨1, 1, [⟨1, 2, 3, 4⟩]⟩ =
      [(⟨Dir.screenshots, failedName [102, 111, 111]⟩, ⟨1, 1, [⟨1, 2, 3, 4⟩]⟩)] ∧
    ¬ ∃ w ∈ snapshotWrites false [102, 111, 111] none ⟨1, 1, [⟨1, 2, 3, 4⟩]⟩,
        w.1 = ⟨Dir.screenshots, diffName [102, 111, 111]⟩ :=
  snapshot_missing_spec [102, 111, 111] ⟨1, 1, [⟨1, 2, 3, 4⟩]⟩

/-- C7: an update-mode run persists the capture into the baseline slot
unconditionally; after two update-mode runs of the same case the baseline
slot holds exactly the second capture, and no other slot was touched. -/
theorem update_overwrites (fs : Artifact → Option Img) (name : List Nat)
    (i1 i2 : Img) :
    updateRun (updateRun fs name i1) name i2 ⟨Dir.snapshots, pngName name⟩ =
      some i2 ∧
    ∀ a, a ≠ ⟨Dir.snapshots, pngName name⟩ →
      updateRun (updateRun fs name i1) name i2 a = fs a := by
  constructor
  · simp [updateRun, snapshotWrites, applyWrites]
  · intro a ha
    simp [updateRun, snapshotWrites, applyWrites, if_neg ha]

/-- C7 witness: two concrete update-mode runs over the empty file
system. -/
theorem update_overwrites_witness :
    updateRun (updateRun (fun _ => none) [102, 111, 111] ⟨1, 1, [⟨1, 2, 3, 4⟩]⟩)
        [102, 111, 111] ⟨1, 1, [⟨9, 2, 3, 4⟩]⟩
        ⟨Dir.snapshots, pngName [102, 111, 111]⟩ =
      some ⟨1, 1, [⟨9, 2, 3, 4⟩]⟩ ∧
    updateRun (updateRun (fun _ => none) [102, 111, 111] ⟨1, 1, [⟨1, 2, 3, 4⟩]⟩)
        [102, 111, 111] ⟨1, 1, [⟨9, 2, 3, 4⟩]⟩
        ⟨Dir.screenshots, pngName [102, 111, 111]⟩ = none :=
  ⟨(update_overwrites (fun _ => none) [102, 111, 111] ⟨1, 1, [⟨1, 2, 3, 4⟩]⟩
      ⟨1, 1, [⟨9, 2, 3, 4⟩]⟩).1,
   (update_overwrites (fun _ => none) [102, 111, 111] ⟨1, 1, [⟨1, 2, 3, 4⟩]⟩
      ⟨1, 1, [⟨9, 2, 3, 4⟩]⟩).2 ⟨Dir.screenshots, pngName [102, 111, 111]⟩
     (by simp)⟩

/-- C8: a single Snapshot call writes at most one diff artifact, and it
writes one only in verify mode, when a baseline exists, differs from the
capture, and shares both its dimensions; no diff is ever written for
differing dimensions. -/
theorem diff_written_only_when_dims_match (update : Bool) (name : List Nat)
    (b : Option Img) (img : Img) :
    (snapshotWrites update name b img).countP
        (fun w => decide (w.1 = ⟨Dir.screenshots, diffName name⟩)) ≤ 1 ∧
    ((∃ w ∈ snapshotWrites update name b img,
        w.1 = ⟨Dir.screenshots, diffName name⟩) →
      update = false ∧ ∃ e, b = some e ∧ imagesEqual e img = false ∧
        e.width = img.width ∧ e.height = img.height) := by
  cases update with
  | true =>
    constructor
    · simp [snapshotWrites, List.countP_cons]
    · rintro ⟨w, hw, hart⟩
      simp only [snapshotWrites, if_pos rfl] at hw
      have hw' : w = (⟨Dir.snapshots, pngName name⟩, img) :=
        List.mem_singleton.mp hw
      subst hw'
      cases congrArg Artifact.dir hart
  | false =>
    cases b with
    | none =>
      constructor
      · simp [snapshotWrites, List.countP_cons, failedName_ne_diffName name]
      · rintro ⟨w, hw, hart⟩
        simp only [snapshotWrites] at hw
        have hw' : w = (⟨Dir.screenshots, failedName name⟩, img) :=
          List.mem_singleton.mp hw
        subst hw'
        exact absurd (congrArg Artifact.file hart) (failedName_ne_diffName name)
    | some e =>
      by_cases heq : imagesEqual e img = true
      · constructor
        · simp [snapshotWrites, heq]
        · rintro ⟨w, hw, hart⟩
          simp only [snapshotWrites, heq, if_pos, if_neg] at hw
          simp [if_pos heq] at hw
      · cases hd : createDiffImage e img with
        | none =>
          have hwrites : snapshotWrites false name (some e) img =
              [(⟨Dir.screenshots, actualName name⟩, img)] := by
            simp [snapshotWrites, heq, hd]
          constructor
          · simp [hwrites, List.countP_cons, actualName_ne_diffName name]
          · rintro ⟨w, hw, hart⟩
            rw [hwrites] at hw
            have hw' : w = (⟨Dir.screenshots, actualName name⟩, img) :=
              List.mem_singleton.mp hw
            subst hw'
            exact absurd (congrArg Artifact.file hart)
              (actualName_ne_diffName name)
        | some d =>
          have hwrites : snapshotWrites false name (some e) img =
              [(⟨Dir.screenshots, actualName name⟩, img),
               (⟨Dir.screenshots, diffName name⟩, d)] := by
            simp [snapshotWrites, heq, hd]
          have hdims := createDiffImage_some_dims hd
          constructor
          · simp [hwrites, List.countP_cons, actualName_ne_diffName name]
          · intro _
            exact ⟨rfl, e, rfl, Bool.not_eq_true _ ▸ heq, hdims.1, hdims.2⟩

/-- C8 witness: the dimension consequence extracted at a concrete
mismatching pair of equal-dimension images. -/
theorem diff_written_only_when_dims_match_witness :
    false = false ∧ ∃ e, (some (⟨1, 1, [⟨1, 2, 3, 4⟩]⟩ : Img)) = some e ∧
      imagesEqual e ⟨1, 1, [⟨9, 2, 3, 4⟩]⟩ = false ∧
      e.width = Img.width ⟨1, 1, [⟨9, 2, 3, 4⟩]⟩ ∧
      e.height = Img.height ⟨1, 1, [⟨9, 2, 3, 4⟩]⟩ :=
  (diff_written_only_when_dims_match false [102, 111, 111]
      (some ⟨1, 1, [⟨1, 2, 3, 4⟩]⟩) ⟨1, 1, [⟨9, 2, 3, 4⟩]⟩).2 (by decide)

end VFyne

namespace Builder

theorem summarizeLoop_spec (results : List CaseOutcome) :
    ∀ s : Summary, summarizeLoop results s =
      { total := s.total
        passed := s.passed + results.countP (·.success)
        failed := s.failed + results.countP (fun r => !r.success)
        passRate := s.passRate
        duration := s.duration + (results.map (·.duration)).sum } := by
  induction results with
  | nil =>
    intro s
    simp [summarizeLoop]
  | cons r rest ih =>
    intro s
    simp only [summarizeLoop]
    rw [ih]
    cases hr : r.success
    · simp only [hr, Bool.false_eq_true, if_false, Bool.not_false, if_true,
        List.countP_cons, List.map_cons, List.sum_cons]
      rw [Summary.mk.injEq]
      refine ⟨rfl, by omega, by omega, rfl, by omega⟩
    · simp only [hr, if_true, Bool.not_true, Bool.false_eq_true, if_false,
        List.countP_cons, List.map_cons, List.sum_cons]
      rw [Summary.mk.injEq]
      refine ⟨rfl, by omega, by omega, rfl, by omega⟩

theorem countP_not_success (l : List CaseOutcome) :
    l.countP (fun r => !r.success) = l.length - l.countP (·.success) := by
  induction l with
  | nil => rfl
  | cons r rest ih =>
    have hle := List.countP_le_length (p := fun r : CaseOutcome => r.success)
      (l := rest)
    simp only [List.countP_cons, List.length_cons]
    cases hr : r.success
    · simp only [hr, Bool.false_eq_true, if_false, Bool.not_false, if_true, ih]
      omega
    · simp only [hr, if_true, Bool.not_true, Bool.false_eq_true, if_false, ih]
      omega

/-- C6: the summary is a pure function of the result sequence, with total
the number of results, passed the number of successful results, failed
equal to total minus passed, passRate equal to passed over total times 100
(zero for an empty run), and duration the sum of the per-case durations;
the SuiteResult statistics of builder.go agree with it field by field. -/
theorem summary_spec (results : List CaseOutcome) :
    createSummary results =
      { total := results.length
        passed := results.countP (·.success)
        failed := results.length - results.countP (·.success)
        passRate :=
          if results.length = 0 then 0
          else (results.countP (·.success) : ℚ) / (results.length : ℚ) * 100
        duration := (results.map (·.duration)).sum } ∧
    suiteTotal results = (createSummary results).total ∧
    suitePassed results = (createSummary results).passed ∧
    suiteFailed results = (createSummary results).failed ∧
    suitePassRate results = (createSummary results).passRate := by
  have hmain : createSummary results =
      { total := results.length
        passed := results.countP (·.success)
        failed := results.length - results.countP (·.success)
        passRate :=
          if results.length = 0 then 0
          else (results.countP (·.success) : ℚ) / (results.length : ℚ) * 100
        duration := (results.map (·.duration)).sum } := by
    unfold createSummary
    rw [summarizeLoop_spec results ⟨results.length, 0, 0, 0, 0⟩]
    simp only [Nat.zero_add, Int.zero_add, zero_add, countP_not_success]
    by_cases hlen : results.length = 0
    · rw [if_neg (by omega), if_pos hlen]
    · rw [if_pos (by omega), if_neg hlen]
  refine ⟨hmain, ?_, ?_, ?_, ?_⟩
  · rw [hmain]; rfl
  · rw [hmain]; rfl
  · rw [hmain]; rfl
  · rw [hmain]
    rfl

/-- C5 counterexample: with a single passing case, report generation
enabled and a failing HTML report render, the CLI exits 1 although every
case passed, so reporting failure does change the run result. -/
theorem report_error_flips_exit_counterexample :
    runCLIExitCode ⟨[⟨true, 5⟩], true, true, false⟩ = 1 ∧
    suiteFailed [⟨true, 5⟩] = 0 := by decide

/-- C5 amended: a JSON report failure never changes the exit code, but an
HTML report failure (with report generation enabled) makes the run exit
nonzero even when all cases passed: the exit code is 0 iff every case
passed and the HTML report did not fail (or reporting was disabled). -/
theorem exit_code_spec (r : CLIRun) :
    (runCLIExitCode r = 0 ↔
      suiteFailed r.results = 0 ∧
        (r.generateReport = false ∨ r.htmlReportFails = false)) ∧
    ∀ j, runCLIExitCode ⟨r.results, r.generateReport, r.htmlReportFails, j⟩ =
      runCLIExitCode r := by
  obtain ⟨res, g, h, j⟩ := r
  constructor
  · unfold runCLIExitCode runTestsReturnsError
    dsimp only
    constructor
    · intro h0
      split_ifs at h0 with h1 h2
      · refine ⟨by omega, ?_⟩
        cases g
        · exact Or.inl rfl
        · cases h
          · exact Or.inr rfl
          · exact absurd rfl h1
    · rintro ⟨h1, h2⟩
      have hg : (g && h) = false := by
        rcases h2 with h2 | h2
        · rw [h2, Bool.false_and]
        · rw [h2, Bool.and_false]
      rw [hg, if_neg Bool.false_ne_true, if_neg (by omega)]
  · intro j'
    rfl

/-- C5 witness: the amended exit-code characterization at a concrete
run. -/
theorem exit_code_spec_witness :
    (runCLIExitCode ⟨[⟨true, 5⟩], true, false, false⟩ = 0 ↔
      suiteFailed [⟨true, 5⟩] = 0 ∧
        ((true : Bool) = false ∨ (false : Bool) = false)) ∧
    ∀ j, runCLIExitCode ⟨[⟨true, 5⟩], true, false, j⟩ =
      runCLIExitCode ⟨[⟨true, 5⟩], true, false, false⟩ :=
  exit_code_spec ⟨[⟨true, 5⟩], true, false, false⟩

end Builder

namespace FyneTest

/-- C10: a negative WaitDuration always fails validation, and running such
a test returns a Result with Success false and a non-nil Error with no
effect performed: no directory or file write, no window, no capture. -/
theorem negative_wait_fail_fast (t : TestCase) (h : t.waitDuration < 0)
    (mkdirOk contentOk captureOk saveOk : Bool) :
    (∃ e, validate t = some e) ∧
    runTest t mkdirOk contentOk captureOk saveOk =
      ⟨false, true, []⟩ := by
  have hv : ∃ e, validate t = some e := by
    unfold validate
    by_cases hn : t.name.isEmpty = true
    · rw [if_pos hn]
      exact ⟨_, rfl⟩
    · rw [if_neg hn]
      cases hf : invalidChars.find? (fun ch => t.name.contains ch) with
      | some ch => exact ⟨_, rfl⟩
      | none =>
        by_cases hs : (!t.hasSetup) = true
        · rw [if_pos hs]
          exact ⟨_, rfl⟩
        · rw [if_neg hs, if_pos h]
          exact ⟨_, rfl⟩
  obtain ⟨e, he⟩ := hv
  refine ⟨⟨e, he⟩, ?_⟩
  unfold runTest
  rw [he]

/-- C10 witness: a concrete test with WaitDuration minus one nanosecond,
a nonempty valid name and a Setup function. -/
theorem negative_wait_fail_fast_witness :
    (∃ e, validate ⟨[120], true, -1⟩ = some e) ∧
    runTest ⟨[120], true, -1⟩ true true true true = ⟨false, true, []⟩ :=
  negative_wait_fail_fast ⟨[120], true, -1⟩ (by decide) true true true true

end FyneTest
